import Mathlib

/-!
Verification of `subspace-cli` (`src/src/main.rs`), a CLI client that
resolves a block reference (explicit number, explicit hash, or best block)
to a single block hash and queries chain state at that hash.

The development shallowly embeds:
  * the storage-key block-number decoder of the `SystemCommands::BlockHash`
    match arm (hex slicing + hex decode + SCALE little-endian `u32` decode);
  * the block-hash table iteration loop;
  * the block-hash resolution logic of `main` and its command dispatch.
-/

namespace SubspaceCli

/-! ## Hex codec (the `hex` crate's `encode`/`decode` as used by `main.rs`) -/

/-- Value of one hex digit character, as accepted by `hex::decode`
(digits, lowercase and uppercase letters). `none` for a non-hex character. -/
def hexDigit (c : Char) : Option Nat :=
  if '0' ≤ c ∧ c ≤ '9' then some (c.toNat - 48)
  else if 'a' ≤ c ∧ c ≤ 'f' then some (c.toNat - 87)
  else if 'A' ≤ c ∧ c ≤ 'F' then some (c.toNat - 55)
  else none

/-- Embeds `hex::decode` on a character sequence: fails on odd length or on any
non-hex character, otherwise yields the byte sequence. -/
def hexDecode : List Char → Option (List Nat)
  | [] => some []
  | [_] => none
  | c1 :: c2 :: rest =>
    match hexDigit c1, hexDigit c2, hexDecode rest with
    | some hi, some lo, some bs => some ((16 * hi + lo) :: bs)
    | _, _, _ => none

/-- Lowercase hex digit character for a value `d < 16`
(as produced by `hex::encode`). -/
def hexChar (d : Nat) : Char :=
  if d < 10 then Char.ofNat (48 + d) else Char.ofNat (87 + d)

/-- Embeds `hex::encode` of one byte: two lowercase hex characters. -/
def hexEncodeByte (b : Nat) : List Char :=
  [hexChar (b / 16), hexChar (b % 16)]

/-- Embeds `hex::encode` of a byte sequence. -/
def hexEncode (bs : List Nat) : List Char :=
  bs.flatMap hexEncodeByte

/-! ## SCALE decoding of `u32` and little-endian encoding -/

/-- Embeds `<u32 as Decode>::decode` from a byte slice: reads exactly the first
4 bytes as a little-endian `u32`, leaving any trailing bytes unread;
fails when fewer than 4 bytes are available. -/
def scaleDecodeU32 : List Nat → Option Nat
  | b0 :: b1 :: b2 :: b3 :: _ =>
    some (b0 + 256 * b1 + 65536 * b2 + 16777216 * b3)
  | _ => none

/-- Embeds `u32::to_le_bytes`: the 4 little-endian bytes of `n` (mod 2^32). -/
def toLE4 (n : Nat) : List Nat :=
  [n % 256, n / 256 % 256, n / 65536 % 256, n / 16777216 % 256]

/-! ## The block-number key decoder (`SystemCommands::BlockHash` arm) -/

/-- Sum of `STORAGE_PREFIX_LEN` (32-byte prefix hash, 64 hex chars) and
`TWOX_HASH_LEN` (8-byte item hash, 16 hex chars). -/
def sliceLen : Nat := 64 + 16

/-- Outcome of decoding one storage key. -/
inductive DecodeResult where
  /-- Successful decode of a block number. -/
  | ok (n : Nat)
  /-- A reportable error propagated by `?` (a `hex` or SCALE decode error). -/
  | error
  /-- A Rust panic: the slice `&key[80..]` is out of bounds. -/
  | panicked
deriving DecidableEq, Repr

/-- The decoder of the loop body
`Decode::decode(&mut hex::decode(&key[STORAGE_PREFIX_LEN + TWOX_HASH_LEN..])?.as_slice())?`:
slicing a Rust string below index 80 when it is shorter than 80 bytes
panics; otherwise the remainder is hex-decoded (`?` on failure) and
SCALE-decoded as a `u32` (`?` on failure). -/
def decodeBlockNumberKey (key : List Char) : DecodeResult :=
  if key.length < sliceLen then .panicked
  else
    match hexDecode (key.drop sliceLen) with
    | none => .error
    | some bytes =>
      match scaleDecodeU32 bytes with
      | none => .error
      | some n => .ok n

/-! ## The block-hash table iteration loop -/

/-- Returns `true` exactly for a successful decode. -/
def DecodeResult.isOk : DecodeResult → Bool
  | .ok _ => true
  | _ => false

/-- The `while let Some((key, hash)) = iter.next().await?` loop of the
`SystemCommands::BlockHash` arm over a finite entry list: each entry's key
is decoded and the pair printed; a decode failure (or panic) stops the
loop at that entry. Returns the emitted `(number, hash)` lines and whether
the loop aborted. -/
def blockHashLoop : List (List Char × Nat) → List (Nat × Nat) × Bool
  | [] => ([], false)
  | (key, h) :: rest =>
    match decodeBlockNumberKey key with
    | .ok n =>
      let r := blockHashLoop rest
      ((n, h) :: r.1, r.2)
    | _ => ([], true)

/-! ## Block resolution and command dispatch (`main`) -/

/-- One `rpc.block_hash` call: `byNumber n` for `block_hash(Some(n))`,
`best` for `block_hash(None)`. -/
inductive RpcCall where
  | byNumber (n : Nat)
  | best
deriving DecidableEq, Repr

/-- How block resolution fails: a transport error propagated by `?`, or a
panic (`unwrap_or_else(|| panic!(...))` / `expect`) carrying its message. -/
inductive ResolveError where
  | transport
  | panicMsg (msg : String)
deriving DecidableEq, Repr

/-- The storage queries `main` can issue, each tagged with the block hash
passed as the `Some(block_hash)` argument. -/
inductive Query where
  | account (who : Nat) (h : Nat)
  | events (h : Nat)
  | blockHashTable (h : Nat)
  | snapshotRead (table : Nat) (h : Nat)
deriving DecidableEq, Repr

/-- The block hash a query is issued against. -/
def Query.hashUsed : Query → Nat
  | .account _ h => h
  | .events h => h
  | .blockHashTable h => h
  | .snapshotRead _ h => h

/-- The node and network as seen through the RPC client: every call either
fails in transport (`Except.error`) or returns a response. Block hashes and
opaque payloads (account info, events) are abstracted as naturals; the
block-hash map iterator is the finite list of `(key, value)` entries the
cursor yields. -/
structure World where
  blockHashRpc : Option Nat → Except Unit (Option Nat)
  accountRpc : Nat → Nat → Except Unit Nat
  eventsRpc : Nat → Except Unit Nat
  blockHashIter : Nat → Except Unit (List (List Char × Nat))
  snapshotTables : List Nat
  snapshotResult : Nat → Except Unit Unit

/-- Returns `true` exactly on `Except.error`. -/
def isErr {ε α : Type} : Except ε α → Bool
  | .error _ => true
  | .ok _ => false

/-- The CLI subcommands (`Commands` / `SystemCommands` of `main.rs`). -/
inductive Command where
  | snapshot
  | sysAccount (who : Nat)
  | sysEvents
  | sysBlockHash
deriving DecidableEq, Repr

/-- Modelled from the spec: the body of `commands::snapshot::snapshot`
(`src/commands/snapshot.rs` is not among the sources; only its call site in
`main` is). Per spec section 4.4 it "drives a broader export (multiple
state tables) at the resolved block hash" and "must reuse the single
resolved hash for consistency": its table-specific reads are all issued at
the block hash it is given, and any failure propagates (the `?` at the
call site in `main`). Returns the queries issued and whether it succeeded. -/
def snapshotRun (w : World) (h : Nat) : List Query × Bool :=
  (w.snapshotTables.map fun t => Query.snapshotRead t h,
   !isErr (w.snapshotResult h))

/-- Block-hash resolution of `main` (the `maybe_block_hash` and
`block_hash` bindings, lines 72-94): with an explicit block number the
node is asked for that number's hash (`?` on transport failure, panic
naming the number when the node returns `None`); otherwise an explicit
hash is used as is; otherwise the node is asked once for the best block
hash (`expect` panic when it has none). Returns the list of
`rpc.block_hash` calls issued and the outcome. -/
def resolve (num : Option Nat) (hash : Option Nat) (w : World) :
    List RpcCall × Except ResolveError Nat :=
  match num with
  | some n =>
    match w.blockHashRpc (some n) with
    | .error _ => ([.byNumber n], .error .transport)
    | .ok none =>
      ([.byNumber n],
       .error (.panicMsg ("Block hash for block number " ++ toString n ++ " not found")))
    | .ok (some h) => ([.byNumber n], .ok h)
  | none =>
    match hash with
    | some h => ([], .ok h)
    | none =>
      match w.blockHashRpc none with
      | .error _ => ([.best], .error .transport)
      | .ok none => ([.best], .error (.panicMsg "Best block hash not found"))
      | .ok (some h) => ([.best], .ok h)

/-- Observable outcome of one CLI invocation: the `block_hash` RPC calls
issued, the storage queries issued (tagged with the hash used), the
`number: hash` lines printed by the block-hash listing, and whether the
process terminates with exit status 0. -/
structure RunResult where
  rpcCalls : List RpcCall
  queries : List Query
  emitted : List (Nat × Nat)
  exitSuccess : Bool
deriving DecidableEq, Repr

/-- The whole of `main` after CLI parsing and client construction:
resolution followed by command dispatch (lines 72-128). The `account` and
`events` arms print the `Result` of their storage read without `?`, so
those reads cannot fail the invocation; the `snapshot` call and the
block-hash listing propagate failures with `?`. -/
def runMain (num : Option Nat) (hash : Option Nat) (cmd : Command) (w : World) :
    RunResult :=
  match resolve num hash w with
  | (calls, .error _) => ⟨calls, [], [], false⟩
  | (calls, .ok h) =>
    match cmd with
    | .snapshot =>
      let r := snapshotRun w h
      ⟨calls, r.1, [], r.2⟩
    | .sysAccount who => ⟨calls, [.account who h], [], true⟩
    | .sysEvents => ⟨calls, [.events h], [], true⟩
    | .sysBlockHash =>
      match w.blockHashIter h with
      | .error _ => ⟨calls, [.blockHashTable h], [], false⟩
      | .ok entries =>
        let r := blockHashLoop entries
        ⟨calls, [.blockHashTable h], r.1, !r.2⟩

/-- Whether the storage read(s) of the dispatched subcommand fail at the
RPC or decode level, i.e. the "failing execution" cases of the dispatch
stage (regardless of whether `main` propagates them). -/
def dispatchFailure (cmd : Command) (h : Nat) (w : World) : Bool :=
  match cmd with
  | .snapshot => isErr (w.snapshotResult h)
  | .sysAccount who => isErr (w.accountRpc who h)
  | .sysEvents => isErr (w.eventsRpc h)
  | .sysBlockHash =>
    match w.blockHashIter h with
    | .error _ => true
    | .ok entries => (blockHashLoop entries).2

/-- Like `dispatchFailure`, but only the failures `main` actually
propagates: the `account` and `events` reads are excluded because their
`Result` is printed rather than unwrapped. -/
def fatalDispatchFailure (cmd : Command) (h : Nat) (w : World) : Bool :=
  match cmd with
  | .snapshot => isErr (w.snapshotResult h)
  | .sysAccount _ => false
  | .sysEvents => false
  | .sysBlockHash =>
    match w.blockHashIter h with
    | .error _ => true
    | .ok entries => (blockHashLoop entries).2

/-! ## Sample worlds used by concrete instantiations -/

/-- A node that knows no blocks at all. -/
def emptyNode : World where
  blockHashRpc := fun _ => .ok none
  accountRpc := fun _ _ => .ok 0
  eventsRpc := fun _ => .ok 0
  blockHashIter := fun _ => .ok []
  snapshotTables := []
  snapshotResult := fun _ => .ok ()

/-- A healthy node: block `n` has hash `1000 + n`, best-block hash `777`. -/
def healthyNode : World where
  blockHashRpc := fun o => .ok (some (match o with | some n => 1000 + n | none => 777))
  accountRpc := fun _ _ => .ok 0
  eventsRpc := fun _ => .ok 0
  blockHashIter := fun _ => .ok []
  snapshotTables := [0, 1]
  snapshotResult := fun _ => .ok ()

/-- A node whose `account` and `events` storage reads fail in transport
but whose block-hash lookups succeed. -/
def accountErrNode : World where
  blockHashRpc := fun _ => .ok (some 7)
  accountRpc := fun _ _ => .error ()
  eventsRpc := fun _ => .error ()
  blockHashIter := fun _ => .ok []
  snapshotTables := []
  snapshotResult := fun _ => .ok ()

/-- A node whose snapshot export fails. -/
def snapErrNode : World where
  blockHashRpc := fun _ => .ok (some 7)
  accountRpc := fun _ _ => .ok 0
  eventsRpc := fun _ => .ok 0
  blockHashIter := fun _ => .ok []
  snapshotTables := [3]
  snapshotResult := fun _ => .error ()

/-- A well-formed block-hash map key for block number 1. -/
def goodKey1 : List Char := List.replicate 80 '0' ++ "01000000".toList

/-- A well-formed block-hash map key for block number 2. -/
def goodKey2 : List Char := List.replicate 80 '0' ++ "02000000".toList

/-- A malformed key: its remainder decodes to only 2 bytes. -/
def badKey : List Char := List.replicate 80 '0' ++ "0abc".toList

/-! ## Codec lemmas -/

theorem hexDigit_hexChar (d : Nat) (hd : d < 16) : hexDigit (hexChar d) = some d := by
  interval_cases d <;> decide

theorem hexDecode_hexEncode (bs : List Nat) (hb : ∀ b ∈ bs, b < 256) :
    hexDecode (hexEncode bs) = some bs := by
  induction bs with
  | nil => rfl
  | cons b bs ih =>
    have hblt : b < 256 := hb b (List.mem_cons_self b bs)
    have hdiv : b / 16 < 16 := by omega
    have hmod : b % 16 < 16 := by omega
    have hrest : hexDecode (hexEncode bs) = some bs :=
      ih fun x hx => hb x (List.mem_cons_of_mem b hx)
    show hexDecode (hexChar (b / 16) :: hexChar (b % 16) :: hexEncode bs) = _
    rw [hexDecode, hexDigit_hexChar _ hdiv, hexDigit_hexChar _ hmod, hrest]
    have hval : 16 * (b / 16) + b % 16 = b := by omega
    show some ((16 * (b / 16) + b % 16) :: bs) = some (b :: bs)
    rw [hval]

theorem sliceLen_eq : sliceLen = 80 := rfl

/-- Splitting the decoder at a length-80 prefix. -/
theorem decodeBlockNumberKey_append (pfx rest : List Char) (hp : pfx.length = 80) :
    decodeBlockNumberKey (pfx ++ rest) =
      match hexDecode rest with
      | none => .error
      | some bytes =>
        match scaleDecodeU32 bytes with
        | none => .error
        | some n => .ok n := by
  unfold decodeBlockNumberKey
  have h1 : ¬ (pfx ++ rest).length < sliceLen := by
    rw [List.length_append, hp, sliceLen_eq]; omega
  rw [if_neg h1]
  have h2 : (pfx ++ rest).drop sliceLen = rest := by
    rw [sliceLen_eq, ← hp]; exact List.drop_left pfx rest
  rw [h2]

/-- The decoder on a key of at least 80 characters, in terms of its
remainder. -/
theorem decodeBlockNumberKey_ge80 (key : List Char) (h80 : 80 ≤ key.length) :
    decodeBlockNumberKey key =
      match hexDecode (key.drop 80) with
      | none => .error
      | some bytes =>
        match scaleDecodeU32 bytes with
        | none => .error
        | some n => .ok n := by
  unfold decodeBlockNumberKey
  rw [sliceLen_eq, if_neg (by omega)]

theorem scaleDecodeU32_eq_none_iff (bs : List Nat) :
    scaleDecodeU32 bs = none ↔ bs.length < 4 := by
  match bs with
  | [] => simp [scaleDecodeU32]
  | [_] => simp [scaleDecodeU32]
  | [_, _] => simp [scaleDecodeU32]
  | [_, _, _] => simp [scaleDecodeU32]
  | _ :: _ :: _ :: _ :: _ => simp [scaleDecodeU32]

theorem blockHashLoop_all_ok_length (l : List (List Char × Nat))
    (h : ∀ e ∈ l, (decodeBlockNumberKey e.1).isOk = true) :
    (blockHashLoop l).1.length = l.length ∧ (blockHashLoop l).2 = false := by
  induction l with
  | nil => exact ⟨rfl, rfl⟩
  | cons e rest ih =>
    obtain ⟨k, v⟩ := e
    have hk := h (k, v) (List.mem_cons_self _ _)
    have hr := ih fun x hx => h x (List.mem_cons_of_mem _ hx)
    cases hd : decodeBlockNumberKey k with
    | ok n => simpa [blockHashLoop, hd] using hr
    | error => rw [hd] at hk; exact absurd hk (by simp [DecodeResult.isOk])
    | panicked => rw [hd] at hk; exact absurd hk (by simp [DecodeResult.isOk])

/-! ## Equation lemmas for `resolve` and `runMain` -/

theorem resolve_some_eq (n : Nat) (hash : Option Nat) (w : World) :
    resolve (some n) hash w =
      match w.blockHashRpc (some n) with
      | .error _ => ([.byNumber n], .error .transport)
      | .ok none =>
        ([.byNumber n],
         .error (.panicMsg ("Block hash for block number " ++ toString n ++ " not found")))
      | .ok (some h) => ([.byNumber n], .ok h) := rfl

theorem resolve_none_none_eq (w : World) :
    resolve none none w =
      match w.blockHashRpc none with
      | .error _ => ([.best], .error .transport)
      | .ok none => ([.best], .error (.panicMsg "Best block hash not found"))
      | .ok (some h) => ([.best], .ok h) := rfl

theorem runMain_error (num hash : Option Nat) (cmd : Command) (w : World)
    (calls : List RpcCall) (e : ResolveError)
    (hres : resolve num hash w = (calls, .error e)) :
    runMain num hash cmd w = ⟨calls, [], [], false⟩ := by
  unfold runMain
  rw [hres]

theorem runMain_ok_snapshot (num hash : Option Nat) (w : World)
    (calls : List RpcCall) (h : Nat)
    (hres : resolve num hash w = (calls, .ok h)) :
    runMain num hash Command.snapshot w =
      ⟨calls, (snapshotRun w h).1, [], (snapshotRun w h).2⟩ := by
  unfold runMain
  rw [hres]

theorem runMain_ok_account (num hash : Option Nat) (w : World)
    (calls : List RpcCall) (h who : Nat)
    (hres : resolve num hash w = (calls, .ok h)) :
    runMain num hash (Command.sysAccount who) w =
      ⟨calls, [.account who h], [], true⟩ := by
  unfold runMain
  rw [hres]

theorem runMain_ok_events (num hash : Option Nat) (w : World)
    (calls : List RpcCall) (h : Nat)
    (hres : resolve num hash w = (calls, .ok h)) :
    runMain num hash Command.sysEvents w = ⟨calls, [.events h], [], true⟩ := by
  unfold runMain
  rw [hres]

theorem runMain_ok_blockHash_err (num hash : Option Nat) (w : World)
    (calls : List RpcCall) (h : Nat) (e2 : Unit)
    (hres : resolve num hash w = (calls, .ok h))
    (hit : w.blockHashIter h = .error e2) :
    runMain num hash Command.sysBlockHash w =
      ⟨calls, [.blockHashTable h], [], false⟩ := by
  unfold runMain
  rw [hres]
  show (match w.blockHashIter h with
    | .error _ =>
      ({ rpcCalls := calls, queries := [Query.blockHashTable h], emitted := [],
         exitSuccess := false } : RunResult)
    | .ok entries =>
      { rpcCalls := calls, queries := [Query.blockHashTable h],
        emitted := (blockHashLoop entries).1,
        exitSuccess := !(blockHashLoop entries).2 }) = _
  rw [hit]

theorem runMain_ok_blockHash_ok (num hash : Option Nat) (w : World)
    (calls : List RpcCall) (h : Nat) (entries : List (List Char × Nat))
    (hres : resolve num hash w = (calls, .ok h))
    (hit : w.blockHashIter h = .ok entries) :
    runMain num hash Command.sysBlockHash w =
      ⟨calls, [.blockHashTable h], (blockHashLoop entries).1,
       !(blockHashLoop entries).2⟩ := by
  unfold runMain
  rw [hres]
  show (match w.blockHashIter h with
    | .error _ =>
      ({ rpcCalls := calls, queries := [Query.blockHashTable h], emitted := [],
         exitSuccess := false } : RunResult)
    | .ok entries =>
      { rpcCalls := calls, queries := [Query.blockHashTable h],
        emitted := (blockHashLoop entries).1,
        exitSuccess := !(blockHashLoop entries).2 }) = _
  rw [hit]

/-! ## Claim theorems: storage key codec -/

/-- C1: for every storage key hex string, the block-number decoder slices
off exactly the first 80 hex characters (a 64-character storage-prefix
hash plus a 16-character item hash), hex-decodes the remainder and reads
it as a fixed-width little-endian unsigned 32-bit integer; in particular
the key of 64 `'0'` characters, then 16 `'0'` characters, then
`"01000000"`, decodes to block number 1. -/
theorem blockNumberKey_slices80_le (pfx rest : List Char) (b0 b1 b2 b3 : Nat)
    (hp : pfx.length = 80) (hd : hexDecode rest = some [b0, b1, b2, b3]) :
    decodeBlockNumberKey (pfx ++ rest) =
      .ok (b0 + 256 * b1 + 65536 * b2 + 16777216 * b3) ∧
    decodeBlockNumberKey
      (List.replicate 64 '0' ++ List.replicate 16 '0' ++ "01000000".toList) =
      .ok 1 := by
  constructor
  · rw [decodeBlockNumberKey_append pfx rest hp, hd]
    rfl
  · decide

/-- C1 witness: the general slicing law applied at a prefix of 80 `'0'`
characters and the remainder `"01000000"`. -/
theorem blockNumberKey_slices80_le_witness :
    decodeBlockNumberKey (List.replicate 80 '0' ++ "01000000".toList) = .ok 1 := by
  have h := (blockNumberKey_slices80_le (List.replicate 80 '0') "01000000".toList
    1 0 0 0 (by decide) (by decide)).1
  simpa using h

/-- C2: encoding any `u32` value `n` to its 4-byte little-endian form,
hex-encoding it and appending it after an 80-hex-character prefix, then
decoding via the slicing rule, reproduces `n`. -/
theorem blockNumber_roundtrip (n : Nat) (pfx : List Char)
    (hn : n < 4294967296) (hp : pfx.length = 80) :
    decodeBlockNumberKey (pfx ++ hexEncode (toLE4 n)) = .ok n := by
  have hbytes : ∀ b ∈ toLE4 n, b < 256 := by
    intro b hb
    simp only [toLE4, List.mem_cons, List.not_mem_nil, or_false] at hb
    rcases hb with h | h | h | h <;> omega
  rw [decodeBlockNumberKey_append pfx _ hp, hexDecode_hexEncode (toLE4 n) hbytes]
  show DecodeResult.ok (n % 256 + 256 * (n / 256 % 256) + 65536 * (n / 65536 % 256)
    + 16777216 * (n / 16777216 % 256)) = DecodeResult.ok n
  congr 1
  omega

/-- C2 witness at `n = u32::MAX = 4294967295`. -/
theorem blockNumber_roundtrip_witness :
    decodeBlockNumberKey (List.replicate 80 '0' ++ hexEncode (toLE4 4294967295)) =
      .ok 4294967295 :=
  blockNumber_roundtrip 4294967295 (List.replicate 80 '0') (by norm_num) (by decide)

/-- C10: when the remainder after the 80-character prefix is valid hex and
decodes to 4 or more bytes, decoding succeeds and returns the
little-endian `u32` formed from the first 4 bytes, ignoring any trailing
bytes. -/
theorem blockNumberKey_ignores_trailing (pfx rest : List Char)
    (b0 b1 b2 b3 : Nat) (tl : List Nat) (hp : pfx.length = 80)
    (hd : hexDecode rest = some (b0 :: b1 :: b2 :: b3 :: tl)) :
    decodeBlockNumberKey (pfx ++ rest) =
      .ok (b0 + 256 * b1 + 65536 * b2 + 16777216 * b3) := by
  rw [decodeBlockNumberKey_append pfx rest hp, hd]
  rfl

/-- C10 witness: a 5-byte remainder `"02000000ff"` decodes to 2, with the
trailing byte `0xff` ignored. -/
theorem blockNumberKey_ignores_trailing_witness :
    decodeBlockNumberKey (List.replicate 80 '0' ++ "02000000ff".toList) = .ok 2 := by
  have h := blockNumberKey_ignores_trailing (List.replicate 80 '0')
    "02000000ff".toList 2 0 0 0 [255] (by decide) (by decide)
  simpa using h

/-- C3 counterexample: the decoder does NOT fail exactly when the key is
shorter than 80 characters, the remainder is invalid hex, or the remainder
is not exactly 4 bytes: the key of 80 `'0'` characters followed by
`"0100000000"` has a 5-byte remainder, yet decoding succeeds with value 1
(SCALE `u32` decoding reads the first 4 bytes and leaves trailing bytes
unread). -/
theorem decode_error_condition_refuted :
    ¬ (∀ key : List Char,
        decodeBlockNumberKey key = DecodeResult.error ↔
          (key.length < 80 ∨ hexDecode (key.drop 80) = none ∨
            ∃ bs, hexDecode (key.drop 80) = some bs ∧ bs.length ≠ 4)) := by
  intro hall
  have h := (hall (List.replicate 80 '0' ++ "0100000000".toList)).mpr
    (Or.inr (Or.inr ⟨[1, 0, 0, 0, 0], by decide, by decide⟩))
  exact absurd h (by decide)

/-- C3 amended: a key shorter than 80 characters makes the Rust slice
`&key[80..]` panic (an uncontrolled crash, not a reportable
`DecodeError`); for keys of at least 80 characters, decoding fails with a
`DecodeError` exactly when the remainder is not valid hex or hex-decodes
to fewer than 4 bytes (a remainder of 4 or more bytes succeeds, ignoring
trailing bytes). -/
theorem decode_error_characterization (key : List Char) :
    (decodeBlockNumberKey key = DecodeResult.panicked ↔ key.length < 80) ∧
    (decodeBlockNumberKey key = DecodeResult.error ↔
      (80 ≤ key.length ∧ (hexDecode (key.drop 80) = none ∨
        ∃ bs, hexDecode (key.drop 80) = some bs ∧ bs.length < 4))) := by
  by_cases hl : key.length < 80
  · have hp : decodeBlockNumberKey key = .panicked := by
      unfold decodeBlockNumberKey
      rw [sliceLen_eq, if_pos hl]
    rw [hp]
    exact ⟨⟨fun _ => hl, fun _ => rfl⟩,
      ⟨fun h => absurd h (by simp), fun h => absurd h.1 (by omega)⟩⟩
  · have h80 : 80 ≤ key.length := by omega
    cases hdec : hexDecode (key.drop 80) with
    | none =>
      have he : decodeBlockNumberKey key = .error := by
        rw [decodeBlockNumberKey_ge80 key h80, hdec]
      rw [he]
      exact ⟨⟨fun h => absurd h (by simp), fun h => absurd h hl⟩,
        ⟨fun _ => ⟨h80, Or.inl rfl⟩, fun _ => rfl⟩⟩
    | some bs =>
      cases hsc : scaleDecodeU32 bs with
      | none =>
        have hlen : bs.length < 4 := (scaleDecodeU32_eq_none_iff bs).mp hsc
        have he : decodeBlockNumberKey key = .error := by
          rw [decodeBlockNumberKey_ge80 key h80, hdec]
          show (match scaleDecodeU32 bs with
            | none => DecodeResult.error
            | some n => DecodeResult.ok n) = DecodeResult.error
          rw [hsc]
        rw [he]
        exact ⟨⟨fun h => absurd h (by simp), fun h => absurd h hl⟩,
          ⟨fun _ => ⟨h80, Or.inr ⟨bs, rfl, hlen⟩⟩, fun _ => rfl⟩⟩
      | some n =>
        have hlen : ¬ bs.length < 4 := by
          intro hc
          rw [(scaleDecodeU32_eq_none_iff bs).mpr hc] at hsc
          exact Option.noConfusion hsc
        have he : decodeBlockNumberKey key = .ok n := by
          rw [decodeBlockNumberKey_ge80 key h80, hdec]
          show (match scaleDecodeU32 bs with
            | none => DecodeResult.error
            | some n => DecodeResult.ok n) = DecodeResult.ok n
          rw [hsc]
        rw [he]
        refine ⟨⟨fun h => absurd h (by simp), fun h => absurd h hl⟩,
          ⟨fun h => absurd h (by simp), fun h => ?_⟩⟩
        rcases h.2 with hnone | ⟨bs2, hbs2, hlen2⟩
        · exact Option.noConfusion hnone
        · have hb : bs2 = bs := by injection hbs2 with he2; exact he2.symm
          exact absurd (hb ▸ hlen2) hlen

/-- C3 amended witness: the empty key panics; the key of exactly 80 `'0'`
characters (empty remainder, 0 bytes) fails with a decode error. -/
theorem decode_error_characterization_witness :
    decodeBlockNumberKey ([] : List Char) = DecodeResult.panicked ∧
    decodeBlockNumberKey (List.replicate 80 '0') = DecodeResult.error :=
  ⟨(decode_error_characterization []).1.mpr (by decide),
   (decode_error_characterization (List.replicate 80 '0')).2.mpr
     ⟨by decide, Or.inr ⟨[], by decide, by decide⟩⟩⟩

/-- C8: during block-hash-table iteration, a decode failure on any single
entry aborts the listing at that point: the lines emitted are exactly
those of the entries before the failing one (same output as iterating the
good prefix alone, one line per entry), the bad entry is not skipped, and
nothing after it is emitted. -/
theorem decode_failure_aborts_listing (pre : List (List Char × Nat))
    (bad : List Char × Nat) (post : List (List Char × Nat))
    (hpre : ∀ e ∈ pre, (decodeBlockNumberKey e.1).isOk = true)
    (hbad : (decodeBlockNumberKey bad.1).isOk = false) :
    blockHashLoop (pre ++ bad :: post) = ((blockHashLoop pre).1, true) ∧
    (blockHashLoop (pre ++ bad :: post)).1.length = pre.length := by
  have key : ∀ l : List (List Char × Nat),
      (∀ e ∈ l, (decodeBlockNumberKey e.1).isOk = true) →
      blockHashLoop (l ++ bad :: post) = ((blockHashLoop l).1, true) := by
    intro l
    induction l with
    | nil =>
      intro _
      obtain ⟨bk, bv⟩ := bad
      simp only [List.nil_append, blockHashLoop]
      cases hd : decodeBlockNumberKey bk with
      | ok n => rw [hd] at hbad; simp [DecodeResult.isOk] at hbad
      | error => rfl
      | panicked => rfl
    | cons e rest ih =>
      intro hall
      obtain ⟨k, v⟩ := e
      have hk := hall (k, v) (List.mem_cons_self _ _)
      have ih2 := ih fun x hx => hall x (List.mem_cons_of_mem _ hx)
      cases hd : decodeBlockNumberKey k with
      | ok n => simp only [List.cons_append, blockHashLoop, hd, List.append_eq, ih2]
      | error => rw [hd] at hk; simp [DecodeResult.isOk] at hk
      | panicked => rw [hd] at hk; simp [DecodeResult.isOk] at hk
  have h1 := key pre hpre
  refine ⟨h1, ?_⟩
  rw [h1]
  exact (blockHashLoop_all_ok_length pre hpre).1

/-- C8 witness: with a good entry, then a malformed entry, then another
good entry, only the first line is emitted and the loop aborts. -/
theorem decode_failure_aborts_listing_witness :
    blockHashLoop [(goodKey1, 5), (badKey, 7), (goodKey2, 9)] = ([(1, 5)], true) := by
  have h := (decode_failure_aborts_listing [(goodKey1, 5)] (badKey, 7) [(goodKey2, 9)]
    (by decide) (by decide)).1
  exact h.trans (by decide)

/-! ## Claim theorems: block resolution and dispatch -/

/-- C4: when an explicit block number is given, the whole invocation is
independent of the explicit hash (which is ignored entirely), and
resolution uses only the hash obtained from the node for that number. -/
theorem explicit_number_ignores_hash (n : Nat) (h1 h2 : Option Nat)
    (cmd : Command) (w : World) :
    runMain (some n) h1 cmd w = runMain (some n) h2 cmd w ∧
    (∀ hsh, w.blockHashRpc (some n) = .ok (some hsh) →
      resolve (some n) h1 w = ([RpcCall.byNumber n], .ok hsh)) := by
  constructor
  · have hres : resolve (some n) h1 w = resolve (some n) h2 w := rfl
    unfold runMain
    rw [hres]
  · intro hsh hrpc
    rw [resolve_some_eq n h1 w, hrpc]

/-- C4 witness: with `--block-number 5` the run is the same whether
`--block-hash 42` is given or not, and resolution returns block 5's
node-reported hash `1005`. -/
theorem explicit_number_ignores_hash_witness :
    runMain (some 5) (some 42) Command.sysEvents healthyNode =
      runMain (some 5) none Command.sysEvents healthyNode ∧
    resolve (some 5) (some 42) healthyNode = ([RpcCall.byNumber 5], .ok 1005) := by
  have h := explicit_number_ignores_hash 5 (some 42) none Command.sysEvents healthyNode
  exact ⟨h.1, h.2 1005 rfl⟩

/-- C5: when an explicit block number is given but the node reports no
hash for it, the invocation fails (non-zero exit), no storage query is
issued, and the resolution error message names that exact block number. -/
theorem missing_number_fails (n : Nat) (hash : Option Nat) (cmd : Command)
    (w : World) (hmiss : w.blockHashRpc (some n) = .ok none) :
    (runMain (some n) hash cmd w).exitSuccess = false ∧
    (runMain (some n) hash cmd w).queries = [] ∧
    (resolve (some n) hash w).2 =
      .error (.panicMsg ("Block hash for block number " ++ toString n ++ " not found")) := by
  have hres : resolve (some n) hash w =
      ([RpcCall.byNumber n],
       .error (.panicMsg ("Block hash for block number " ++ toString n ++ " not found"))) := by
    rw [resolve_some_eq n hash w, hmiss]
  rw [runMain_error (some n) hash cmd w _ _ hres, hres]
  exact ⟨rfl, rfl, rfl⟩

/-- C5 witness: `--block-number 500` against a node with no blocks: the
run fails with no queries and the message references `500`. -/
theorem missing_number_fails_witness :
    (runMain (some 500) none Command.sysEvents emptyNode).exitSuccess = false ∧
    (runMain (some 500) none Command.sysEvents emptyNode).queries = [] ∧
    (resolve (some 500) none emptyNode).2 =
      .error (.panicMsg ("Block hash for block number " ++ toString 500 ++ " not found")) :=
  missing_number_fails 500 none Command.sysEvents emptyNode rfl

/-- C6: with neither an explicit number nor an explicit hash, resolution
issues exactly one `rpc.block_hash` call, the no-argument best-block one;
the returned hash is the resolved hash, and if the node supplies no
best-block hash the invocation fails with no storage query issued. -/
theorem best_block_fallback (cmd : Command) (w : World) :
    (resolve none none w).1 = [RpcCall.best] ∧
    (∀ h, w.blockHashRpc none = .ok (some h) → (resolve none none w).2 = .ok h) ∧
    (w.blockHashRpc none = .ok none →
      (runMain none none cmd w).exitSuccess = false ∧
      (runMain none none cmd w).queries = []) := by
  refine ⟨?_, ?_, ?_⟩
  · rw [resolve_none_none_eq w]
    cases hb : w.blockHashRpc none with
    | error e => rfl
    | ok o => cases o <;> rfl
  · intro h hb
    rw [resolve_none_none_eq w, hb]
  · intro hb
    have hres : resolve none none w =
        ([RpcCall.best], .error (.panicMsg "Best block hash not found")) := by
      rw [resolve_none_none_eq w, hb]
    rw [runMain_error none none cmd w _ _ hres]
    exact ⟨rfl, rfl⟩

/-- C6 witness: with no block flags, a healthy node is asked once for the
best block and its hash `777` is the resolved hash; a node without a best
block makes the run fail. -/
theorem best_block_fallback_witness :
    (resolve none none healthyNode).1 = [RpcCall.best] ∧
    (resolve none none healthyNode).2 = .ok 777 ∧
    (runMain none none Command.sysEvents emptyNode).exitSuccess = false := by
  have h1 := best_block_fallback Command.sysEvents healthyNode
  have h2 := best_block_fallback Command.sysEvents emptyNode
  exact ⟨h1.1, h1.2.1 777 rfl, (h2.2.2 rfl).1⟩

/-- C7 counterexample: it is NOT the case that every failing execution
exits non-zero: with a node whose `account` storage read fails in
transport, `system account` encounters an RPC failure at that call site
(a dispatch failure), yet the process prints the `Err` value and exits 0,
because the `account` arm never unwraps its `Result`. -/
theorem failing_exit_nonzero_refuted :
    ¬ (∀ (num hash : Option Nat) (cmd : Command) (w : World),
        (runMain num hash cmd w).exitSuccess = false ↔
          (isErr (resolve num hash w).2 = true ∨
            ∃ h, (resolve num hash w).2 = .ok h ∧ dispatchFailure cmd h w = true)) := by
  intro hall
  have h := (hall none none (Command.sysAccount 3) accountErrNode).mpr
    (Or.inr ⟨7, rfl, rfl⟩)
  exact absurd h (by decide)

/-- C7 amended: the invocation exits non-zero exactly when resolution
fails, or the dispatched subcommand's reads fail at the RPC or decode
level — except for the `account` and `events` subcommands, whose single
storage read's `Result` is printed rather than propagated, so they exit 0
even when that read fails. -/
theorem exit_nonzero_characterization (num hash : Option Nat) (cmd : Command)
    (w : World) :
    (runMain num hash cmd w).exitSuccess = false ↔
      (isErr (resolve num hash w).2 = true ∨
        ∃ h, (resolve num hash w).2 = .ok h ∧ fatalDispatchFailure cmd h w = true) := by
  cases hres : resolve num hash w with
  | mk calls out =>
    cases out with
    | error e =>
      rw [runMain_error num hash cmd w calls e hres]
      exact ⟨fun _ => Or.inl rfl, fun _ => rfl⟩
    | ok h =>
      cases cmd with
      | snapshot =>
        rw [runMain_ok_snapshot num hash w calls h hres]
        constructor
        · intro hx
          refine Or.inr ⟨h, rfl, ?_⟩
          have hx2 : (!isErr (w.snapshotResult h)) = false := hx
          show isErr (w.snapshotResult h) = true
          cases hb : isErr (w.snapshotResult h) with
          | true => rfl
          | false => rw [hb] at hx2; simp at hx2
        · intro hx
          rcases hx with hx | ⟨h2, hh2, hfat⟩
          · simp [isErr] at hx
          · have hh : h2 = h := by injection hh2 with he; exact he.symm
            rw [hh] at hfat
            have hfat2 : isErr (w.snapshotResult h) = true := hfat
            show (!isErr (w.snapshotResult h)) = false
            rw [hfat2]
            rfl
      | sysAccount who =>
        rw [runMain_ok_account num hash w calls h who hres]
        constructor
        · intro hx
          exact Bool.noConfusion hx
        · intro hx
          rcases hx with hx | ⟨h2, _, hfat⟩
          · simp [isErr] at hx
          · exact Bool.noConfusion hfat
      | sysEvents =>
        rw [runMain_ok_events num hash w calls h hres]
        constructor
        · intro hx
          exact Bool.noConfusion hx
        · intro hx
          rcases hx with hx | ⟨h2, _, hfat⟩
          · simp [isErr] at hx
          · exact Bool.noConfusion hfat
      | sysBlockHash =>
        cases hit : w.blockHashIter h with
        | error e2 =>
          rw [runMain_ok_blockHash_err num hash w calls h e2 hres hit]
          constructor
          · intro _
            refine Or.inr ⟨h, rfl, ?_⟩
            show (match w.blockHashIter h with
              | .error _ => true
              | .ok es => (blockHashLoop es).2) = true
            rw [hit]
          · intro _
            rfl
        | ok entries =>
          rw [runMain_ok_blockHash_ok num hash w calls h entries hres hit]
          constructor
          · intro hx
            refine Or.inr ⟨h, rfl, ?_⟩
            show (match w.blockHashIter h with
              | .error _ => true
              | .ok es => (blockHashLoop es).2) = true
            rw [hit]
            show (blockHashLoop entries).2 = true
            have hx2 : (!(blockHashLoop entries).2) = false := hx
            cases hb : (blockHashLoop entries).2 with
            | true => rfl
            | false => rw [hb] at hx2; simp at hx2
          · intro hx
            rcases hx with hx | ⟨h2, hh2, hfat⟩
            · simp [isErr] at hx
            · have hh : h2 = h := by injection hh2 with he; exact he.symm
              rw [hh] at hfat
              have hfat2 : (match w.blockHashIter h with
                | .error _ => true
                | .ok es => (blockHashLoop es).2) = true := hfat
              rw [hit] at hfat2
              have hfat3 : (blockHashLoop entries).2 = true := hfat2
              show (!(blockHashLoop entries).2) = false
              rw [hfat3]
              rfl

/-- C7 amended witness: a failing snapshot export exits non-zero. -/
theorem exit_nonzero_characterization_witness :
    (runMain (some 1) none Command.snapshot snapErrNode).exitSuccess = false :=
  (exit_nonzero_characterization (some 1) none Command.snapshot snapErrNode).mpr
    (Or.inr ⟨7, rfl, rfl⟩)

/-- C9: no storage query is issued when resolution fails, and when
resolution succeeds with hash `h`, every storage query of the dispatched
subcommand — account, events, block-hash table, or snapshot — is issued
against that same hash `h`, so all queries of one invocation observe one
state view. -/
theorem single_hash_consistency (num hash : Option Nat) (cmd : Command)
    (w : World) :
    (isErr (resolve num hash w).2 = true → (runMain num hash cmd w).queries = []) ∧
    (∀ h, (resolve num hash w).2 = .ok h →
      ∀ q ∈ (runMain num hash cmd w).queries, q.hashUsed = h) := by
  cases hres : resolve num hash w with
  | mk calls out =>
    cases out with
    | error e =>
      refine ⟨fun _ => ?_, fun h hok => absurd hok (by simp)⟩
      rw [runMain_error num hash cmd w calls e hres]
    | ok h0 =>
      refine ⟨fun hisErr => absurd hisErr (by simp [isErr]), fun h hok q hq => ?_⟩
      have hh : h0 = h := by injection hok
      subst hh
      cases cmd with
      | snapshot =>
        rw [runMain_ok_snapshot num hash w calls h0 hres] at hq
        have hq2 : q ∈ w.snapshotTables.map fun t => Query.snapshotRead t h0 := hq
        obtain ⟨t, _, rfl⟩ := List.mem_map.mp hq2
        rfl
      | sysAccount who =>
        rw [runMain_ok_account num hash w calls h0 who hres] at hq
        have hq2 : q ∈ [Query.account who h0] := hq
        rw [List.mem_singleton.mp hq2]
        rfl
      | sysEvents =>
        rw [runMain_ok_events num hash w calls h0 hres] at hq
        have hq2 : q ∈ [Query.events h0] := hq
        rw [List.mem_singleton.mp hq2]
        rfl
      | sysBlockHash =>
        cases hit : w.blockHashIter h0 with
        | error e2 =>
          rw [runMain_ok_blockHash_err num hash w calls h0 e2 hres hit] at hq
          have hq2 : q ∈ [Query.blockHashTable h0] := hq
          rw [List.mem_singleton.mp hq2]
          rfl
        | ok entries =>
          rw [runMain_ok_blockHash_ok num hash w calls h0 entries hres hit] at hq
          have hq2 : q ∈ [Query.blockHashTable h0] := hq
          rw [List.mem_singleton.mp hq2]
          rfl

/-- C9 witness: with no block flags against the healthy node, a snapshot
query is among those issued and it uses the resolved best-block hash
`777`. -/
theorem single_hash_consistency_witness :
    (Query.snapshotRead 0 777).hashUsed = 777 :=
  (single_hash_consistency none none Command.snapshot healthyNode).2 777 rfl
    (Query.snapshotRead 0 777) (by decide)

end SubspaceCli
